import Mathlib

/-!
Shallow embedding of the Aggregation & Reporting module of the red-tag-form
repository (src/script.js): the analytics pass `performAIAnalysis`
(frequency tables, ranked top-N lists, 30-day trend classification), the
display formatter `formatTopItems`, and the flat-file exporter
`exportToExcel` (modelled here by its pure serialization `csvContent`).

Modelling conventions:
* JavaScript field values that may be `undefined` are `Option String`;
  the JavaScript truthiness test used by `a || b` treats both `undefined`
  and the empty string as falsy, which `jsOrD` / `jsOrOpt` reproduce.
* A JavaScript object used as a frequency table is an association list in
  property order.  Property enumeration (`Object.entries`) lists keys that
  are canonical array indices first, in ascending numeric order, and all
  remaining string keys in insertion order; `plainJsEntries` reproduces this.
* `Array.prototype.sort` is a stable sort (ES2019).  The output of a
  stable sort is uniquely determined by the total preorder the comparator
  induces, so the sort is embedded as `List.insertionSort` (stable, and
  structurally recursive hence executable in proofs) over the relation
  `plainCountDescRel` induced by the comparator `(a, b) => b - a`.
* Clock values are integers (milliseconds); `new Date(s)` on the ISO
  `YYYY-MM-DD` strings the data model prescribes yields the UTC midnight
  of that civil date, and `setDate(getDate() - 30)` subtracts thirty
  days of milliseconds.  Invalid dates are `none` and every comparison
  against them is false, as for `NaN`.
-/

namespace RedTag

open scoped List

/-- One red-tag submission (spec section 3, SubmissionRecord).  Every field
the analytics or the exporter reads is kept; a field that JavaScript would
see as `undefined` is `none`.  Numeric fields (`id`) are kept in their
rendered string form, which is all the exporter uses. -/
structure SubmissionRecord where
  id : Option String := none
  mfc : Option String := none
  removalDate : Option String := none
  date : Option String := none
  taggedBy : Option String := none
  itemType : Option String := none
  partNumber : Option String := none
  removedFrom : Option String := none
  serviceCallId : Option String := none
  reasonRemove : Option String := none
  comments : Option String := none
deriving DecidableEq

/-- JavaScript `a || b` where the default `b` is a string: `undefined` and
`""` are falsy. -/
def jsOrD (a : Option String) (b : String) : String :=
  match a with
  | some s => if s = "" then b else s
  | none => b

/-- JavaScript `a || b` where both operands may be `undefined`. -/
def jsOrOpt (a b : Option String) : Option String :=
  match a with
  | some s => if s = "" then b else some s
  | none => b

/-- JavaScript property-key coercion: `obj[record.field]` turns an
`undefined` field into the literal key `"undefined"` (script.js lines
358-364; spec section 9). -/
def jsKey (a : Option String) : String :=
  match a with
  | some s => s
  | none => "undefined"

/-- Gregorian leap-year test. -/
def isLeap (y : Nat) : Bool :=
  y % 4 == 0 && (y % 100 != 0 || y % 400 == 0)

/-- Number of days of month `m` in year `y`. -/
def daysInMonth (y m : Nat) : Nat :=
  if m = 2 then (if isLeap y then 29 else 28)
  else if m = 4 ∨ m = 6 ∨ m = 9 ∨ m = 11 then 30
  else 31

/-- Julian day number of the Gregorian civil date `y-m-d`, computed with
natural-number arithmetic (valid for every year of the four-digit ISO
range).  Only differences and comparisons of these values are used. -/
def civilDays (y m d : Nat) : Int :=
  let a : Nat := (14 - m) / 12
  let y2 : Nat := y + 4800 - a
  let m2 : Nat := m + 12 * a - 3
  ((d + (153 * m2 + 2) / 5 + 365 * y2 + y2 / 4 - y2 / 100 + y2 / 400 : Nat) : Int) - 32045

/-- Split a character list at every occurrence of `c` (used to model the
host splitting of date strings and of the exported document). -/
def splitOnChar (c : Char) : List Char → List (List Char)
  | [] => [[]]
  | x :: xs =>
    let r := splitOnChar c xs
    if x = c then [] :: r
    else
      match r with
      | [] => [[x]]
      | g :: gs => (x :: g) :: gs

/-- Decimal value of a nonempty all-digit character list. -/
def digitsToNat (cs : List Char) : Option Nat :=
  if cs ≠ [] ∧ cs.all (·.isDigit) then
    some (cs.foldl (fun a c => a * 10 + (c.toNat - 48)) 0)
  else none

/-- Models `new Date(s)` for the ISO 8601 `YYYY-MM-DD` calendar-date
strings the data model prescribes for `removalDate` / `date` (spec
section 3): a valid date yields its day number, anything malformed or out
of calendar range yields `none` (an Invalid Date).  Legacy non-ISO host
formats are outside the specified data model. -/
def parseISODate (s : String) : Option Int :=
  match splitOnChar '-' s.data with
  | [ys, ms, ds] =>
    if ys.length = 4 ∧ ms.length = 2 ∧ ds.length = 2 then
      match digitsToNat ys, digitsToNat ms, digitsToNat ds with
      | some y, some m, some d =>
        if 1 ≤ m ∧ m ≤ 12 ∧ 1 ≤ d ∧ d ≤ daysInMonth y m then
          some (civilDays y m d)
        else none
      | _, _, _ => none
    else none
  | _ => none

def msPerDay : Int := 86400000

/-- Timestamp (milliseconds) of a possibly absent date string: `none` both
for an `undefined` field and for a string that does not parse. -/
def parseDateMs (s : Option String) : Option Int :=
  match s with
  | some str => (parseISODate str).map (· * msPerDay)
  | none => none

/-- Effective date string of a record for the trend pass: script.js line
388 reads `record.date || record.removalDate`. -/
def effectiveDateStr (r : SubmissionRecord) : Option String :=
  jsOrOpt r.date r.removalDate

/-- Recency test of script.js lines 387-390: `recordDate >= thirtyDaysAgo`
with `thirtyDaysAgo` thirty days of milliseconds before `now`; a record
whose effective date does not parse compares false, as `NaN` does. -/
def isRecent (now : Int) (r : SubmissionRecord) : Bool :=
  match parseDateMs (effectiveDateStr r) with
  | some t => t ≥ now - 30 * msPerDay
  | none => false

/-- Value stored in a property of a JavaScript object counter: the
counters in script.js hold numbers for ordinary keys but strings when
the key collides with an `Object.prototype` member (see `bump`). -/
inductive JSVal where
  | num (n : Nat)
  | str (s : String)
deriving DecidableEq

/-- Numeric reading of a stored value (`0` for a string); used only to
state sums over tables whose values are proved numeric. -/
def JSVal.asNum : JSVal → Nat
  | .num n => n
  | .str _ => 0

/-- String interpolation of a stored value, as in a template literal. -/
def JSVal.render : JSVal → String
  | .num n => toString n
  | .str s => s

/-- Own data properties of `Object.prototype` (ECMA-262, with the Annex B
dunder accessors every web host implements), all function-valued; the
accessor `__proto__` is handled separately. -/
def protoFnNames : List String :=
  ["constructor", "hasOwnProperty", "isPrototypeOf", "propertyIsEnumerable",
   "toLocaleString", "toString", "valueOf",
   "__defineGetter__", "__defineSetter__", "__lookupGetter__", "__lookupSetter__"]

def isProtoFnName (s : String) : Bool :=
  protoFnNames.contains s

/-- A key that collides with no `Object.prototype` member, so the plain
`{}` counter treats it as an ordinary dictionary key. -/
def isPlainKey (k : String) : Bool :=
  !(k == "__proto__" || isProtoFnName k)

/-- Stand-in for the source text of the inherited `Object.prototype`
function named `k` (what `f + 1` stringifies before the concatenation).
ECMA-262 only guarantees the NativeFunction form containing
`[native code]` (hence never a numeric string); the exact text is
implementation-defined and no theorem depends on it. -/
def funcSource (k : String) : String :=
  "function " ++ k ++ "() { [native code] }"

/-- One step of `(v || 0) + 1` on an already stored own value: a number
is incremented (`0` would be falsy and also give 1), a nonempty string
gets `"1"` appended by string concatenation, the empty string is falsy
and restarts at 1. -/
def jsIncrement : JSVal → JSVal
  | .num n => .num (n + 1)
  | .str s => if s = "" then .num 1 else .str (s ++ "1")

/-- A frequency table: a plain-object counter, i.e. the association list
of its own enumerable properties in insertion order (the object also
inherits from `Object.prototype`, which `bump` accounts for). -/
abbrev FreqTable := List (String × JSVal)

/-- One step of `counts[k] = (counts[k] || 0) + 1` (script.js lines
359-364) on a plain `{}` counter:
* an existing own property is updated in place (`jsIncrement`);
* `k = "__proto__"` reads the inherited accessor (a truthy object, so
  the right-hand side is the string `"[object Object]1"`) and the
  assignment invokes the inherited `__proto__` setter, which ignores a
  non-object value: no own property is ever created and the record is
  silently dropped;
* another `Object.prototype` member name reads the inherited function
  (truthy), so `f + 1` concatenates its source text with `"1"` and the
  assignment creates an own property holding that string;
* any other key starts an ordinary numeric count at 1. -/
def bump (t : FreqTable) (k : String) : FreqTable :=
  if t.any (fun p => p.1 == k) then
    t.map (fun p => if p.1 == k then (p.1, jsIncrement p.2) else p)
  else if k = "__proto__" then t
  else if isProtoFnName k then t ++ [(k, .str (funcSource k ++ "1"))]
  else t ++ [(k, .num 1)]

/-- Frequency table of a key list, built by the `forEach` of script.js
lines 359-364. -/
def buildCounts (ks : List String) : FreqTable :=
  ks.foldl bump []

/-- A canonical array-index property key: the decimal numeral of some
`n < 2^32 - 1`, i.e. all digits, below the bound, and with no leading
zero unless the key is `"0"` itself.  JavaScript enumerates such keys
before all other string keys, in ascending numeric order. -/
def isArrayIndexKey (s : String) : Bool :=
  match digitsToNat s.data with
  | some n =>
    decide (n < 2 ^ 32 - 1) && (s.data.length == 1 || s.data.head? != some '0')
  | none => false

/-- Numeric value used to order array-index keys. -/
def keyNumVal {α : Type} (p : String × α) : Nat :=
  (digitsToNat p.1.data).getD 0

/-- Ordering of array-index keys in property enumeration. -/
abbrev keyNumLe {α : Type} (p q : String × α) : Prop :=
  keyNumVal p ≤ keyNumVal q

/-- `Object.entries` of a frequency table: own array-index keys first in
ascending numeric order, then the remaining own keys in insertion order
(inherited properties are not listed). -/
def jsEntries (t : FreqTable) : FreqTable :=
  (t.filter (fun p => isArrayIndexKey p.1)).insertionSort keyNumLe
    ++ t.filter (fun p => !isArrayIndexKey p.1)

/-- `ToNumber` of a stored value as used by the subtraction in the sort
comparator: stored strings always stem from `funcSource` (they contain
`[native code]`), so they are never numeric and convert to `NaN`,
modelled as `none`. -/
def jsToNum : JSVal → Option Int
  | .num n => some (n : Int)
  | .str _ => none

/-- Result of the comparator `([,a],[,b]) => b - a` on entries `p`, `q`
as consumed by `SortCompare`: a `NaN` comparator result is treated as
`+0`. -/
def sortCompare (p q : String × JSVal) : Int :=
  match jsToNum q.2, jsToNum p.2 with
  | some b, some a => b - a
  | _, _ => 0

/-- Relation of the stable sort produced by `.sort(([,a],[,b]) => b - a)`:
descending by numeric count, ties (and `NaN` results) keep their
enumeration order.  When some compared count is a string the comparator
is inconsistent and the host order is implementation-defined; the model
then still fixes the stable-sort order, and no theorem relies on it. -/
abbrev countDescRel (p q : String × JSVal) : Prop :=
  sortCompare p q ≤ 0

/-- Ranked entry list of a key list: enumerate the frequency table in
JavaScript property order and stable-sort it by descending count
(script.js lines 367-381).  A stable sort is uniquely determined by a
consistent comparator, so the ES2019 stable `Array.prototype.sort` is
embedded as the stable insertion sort over `countDescRel`. -/
def rankedEntries (ks : List String) : FreqTable :=
  (jsEntries (buildCounts ks)).insertionSort countDescRel

/-- One `{ name, count }` element of a ranked output list; the count is
a stored JavaScript value (a string for prototype-colliding keys). -/
structure Entry where
  name : String
  count : JSVal
deriving DecidableEq

def mkEntry (p : String × JSVal) : Entry := ⟨p.1, p.2⟩

/-- Sentinel entry returned for the empty snapshot. -/
def noDataEntry : Entry := ⟨"No data yet", .num 0⟩

/-! Numeric shadow of the counter, used for reasoning: on snapshots none
of whose keys collide with an `Object.prototype` member, `buildCounts`
coincides with this clean dictionary (see `buildCounts_numEntry`). -/

/-- A frequency table restricted to numeric counts. -/
abbrev PlainTable := List (String × Nat)

/-- Embedding of a numeric entry into the stored-value form. -/
def numEntry (p : String × Nat) : String × JSVal :=
  (p.1, .num p.2)

/-- `bump` restricted to keys that are ordinary dictionary keys. -/
def plainBump (t : PlainTable) (k : String) : PlainTable :=
  if t.any (fun p => p.1 == k) then
    t.map (fun p => if p.1 == k then (p.1, p.2 + 1) else p)
  else t ++ [(k, 1)]

/-- `buildCounts` on a snapshot of ordinary keys. -/
def plainCounts (ks : List String) : PlainTable :=
  ks.foldl plainBump []

/-- `jsEntries` on a numeric table. -/
def plainJsEntries (t : PlainTable) : PlainTable :=
  (t.filter (fun p => isArrayIndexKey p.1)).insertionSort keyNumLe
    ++ t.filter (fun p => !isArrayIndexKey p.1)

/-- `countDescRel` on numeric entries. -/
abbrev plainCountDescRel (p q : String × Nat) : Prop :=
  q.2 ≤ p.2

/-- `rankedEntries` on a snapshot of ordinary keys. -/
def plainRankedEntries (ks : List String) : PlainTable :=
  (plainJsEntries (plainCounts ks)).insertionSort plainCountDescRel

/-- The trend triple of script.js lines 392-398. -/
structure Trends where
  trend : String
  recentCount : Nat
  totalCount : Nat
deriving DecidableEq

/-- The object returned by `performAIAnalysis` (script.js lines 344-349
and 400): it carries exactly the ranked dimensions `topParts`,
`topAssets`, `mfcStats` and the trend triple. -/
structure AnalysisResult where
  topParts : List Entry
  topAssets : List Entry
  trends : Trends
  mfcStats : List Entry
deriving DecidableEq

/-- The analytics pass of script.js lines 342-401.  The trend guard
`recentData.length > data.length * 0.6` multiplies by the double `0.6`;
for every snapshot size below `2 ^ 50` the rounded product compares
against an integer exactly as the rational `3 / 5` does, so the guard is
embedded as `5 * recent > 3 * total`. -/
def performAIAnalysis (now : Int) (data : List SubmissionRecord) : AnalysisResult :=
  if data.isEmpty then
    { topParts := [noDataEntry]
      topAssets := [noDataEntry]
      trends := ⟨"Insufficient data", 0, 0⟩
      mfcStats := [noDataEntry] }
  else
    let partKeys := data.map (fun r => jsKey r.partNumber)
    let assetKeys := data.map (fun r => jsKey r.removedFrom)
    let mfcKeys := data.map (fun r => jsKey r.mfc)
    let _reasonCounts := buildCounts (data.map (fun r => jsKey r.reasonRemove))
    let recentData := data.filter (isRecent now)
    { topParts := ((rankedEntries partKeys).take 5).map mkEntry
      topAssets := ((rankedEntries assetKeys).take 5).map mkEntry
      trends := ⟨if 5 * recentData.length > 3 * data.length then
          "Increasing failure rate" else "Stable failure rate",
        recentData.length, data.length⟩
      mfcStats := (rankedEntries mfcKeys).map mkEntry }

/-- Replacement performed on the Comments column by script.js line 305,
`(row.comments || "").replace(/,/g, ";")`: the pattern is the single
character `,`, so the global replacement is a character map. -/
def replaceCommas (s : String) : String :=
  String.mk (s.data.map (fun c => if c = ',' then ';' else c))

/-- CSV header row of script.js lines 287-290. -/
def csvHeaders : List String :=
  ["ID", "MFC", "Date", "Tagged By", "Item Type",
   "Part Number", "Asset SN", "Service Call ID", "Reason", "Comments"]

/-- Cells of one exported record line (script.js lines 295-306): every
field is defaulted to the empty string with `||`, the Date column is
`row.removalDate || row.date || ""`, and only the Comments column has its
commas replaced. -/
def recordRow (r : SubmissionRecord) : List String :=
  [jsOrD r.id "",
   jsOrD r.mfc "",
   jsOrD r.removalDate (jsOrD r.date ""),
   jsOrD r.taggedBy "",
   jsOrD r.itemType "",
   jsOrD r.partNumber "",
   jsOrD r.removedFrom "",
   jsOrD r.serviceCallId "",
   jsOrD r.reasonRemove "",
   replaceCommas (jsOrD r.comments "")]

/-- The exported flat document of `exportToExcel` (script.js lines
293-307): header line and one comma-joined line per record, joined with
newlines. -/
def csvContent (db : List SubmissionRecord) : String :=
  String.intercalate "\n"
    (String.intercalate "," csvHeaders ::
      db.map (fun r => String.intercalate "," (recordRow r)))

/-- Split a document at newline characters (the split used by the export
round-trip check). -/
def splitNewlines (s : String) : List String :=
  (splitOnChar '\n' s.data).map String.mk

/-- Guard of the no-data branch of `formatTopItems` (script.js line 409):
`items.length === 0 || items[0].count === 0`. -/
def showsNoData (items : List Entry) : Bool :=
  match items with
  | [] => true
  | e :: _ => e.count == JSVal.num 0

/-- Message of the no-data branch of `formatTopItems` (script.js line
410). -/
def noDataMessage : String :=
  "<em style=\"color: #666;\">No data available</em>"

/-- One rendered item of `formatTopItems` (script.js lines 413-418); only
index 0 gets the emphasized colors. -/
def itemDiv (i : Nat) (e : Entry) : String :=
  "<div style=\"margin: 5px 0; padding: 8px; background: "
    ++ (if i = 0 then "#e3f2fd" else "#f5f5f5")
    ++ "; border-radius: 5px; border-left: 3px solid "
    ++ (if i = 0 then "#1976d2" else "#ddd")
    ++ ";\">\n            <strong>" ++ e.name
    ++ "</strong><br>\n            <small>" ++ e.count.render
    ++ " occurrences</small>\n        </div>"

/-- The display formatter of script.js lines 408-419. -/
def formatTopItems (items : List Entry) : String :=
  if showsNoData items then noDataMessage
  else String.intercalate "" (items.enum.map (fun p => itemDiv p.1 p.2))

/-! Auxiliary definitions used to state and prove properties of the
frequency tables. -/

/-- Keys of a frequency table, in property order. -/
def keysOf (t : PlainTable) : List String :=
  t.map Prod.fst

/-- Total count stored for key `k` (a sum, so it is meaningful even
before key uniqueness is established). -/
def assocVal (t : PlainTable) (k : String) : Nat :=
  ((t.filter (fun p => p.1 == k)).map Prod.snd).sum

/-- Keys of a list in order of first occurrence. -/
def firstKeys : List String → List String
  | [] => []
  | k :: l => k :: (firstKeys l).filter (fun x => decide (x ≠ k))

/-! Definitions that follow the wording of spec claims, for comparison
with the definitions taken from the source. -/

/-- Following the claim wording for the recency test: the effective date
is parsed from `removalDate`, with `date` used only as a legacy alias
(so `removalDate` wins when both are present).  The source reads
`record.date || record.removalDate` instead. -/
def isRecentClaim (now : Int) (r : SubmissionRecord) : Bool :=
  match parseDateMs (jsOrOpt r.removalDate r.date) with
  | some t => t ≥ now - 30 * msPerDay
  | none => false

/-- Ranked dimensions the analysis result object actually carries, with
the record field each one tracks (script.js lines 344-349 and 400):
`topParts`, `topAssets` and `mfcStats` — there is no reason dimension in
the returned object. -/
def resultRankedDims (a : AnalysisResult) : List (String × List Entry) :=
  [("partNumber", a.topParts), ("removedFrom", a.topAssets), ("mfc", a.mfcStats)]

/-- Following the claim wording for the empty snapshot: one sentinel list
for each of the four tracked dimensions, reason included. -/
def claimedSentinelDims : List (String × List Entry) :=
  [("partNumber", [noDataEntry]), ("removedFrom", [noDataEntry]),
   ("mfc", [noDataEntry]), ("reasonRemove", [noDataEntry])]

/-! Concrete snapshots used by counterexamples and witnesses. -/

/-- Record with every field absent. -/
def emptyRecord : SubmissionRecord := {}

/-- First record of the mock database of script.js lines 45-53. -/
def mockRecord : SubmissionRecord :=
  { id := some "1", mfc := some "HLN01", partNumber := some "MOT-001",
    removedFrom := some "LR0000", reasonRemove := some "Defected",
    date := some "2024-01-15" }

/-- Record whose part number is the array-index string `"2"`. -/
def cexTieA : SubmissionRecord := { partNumber := some "2" }

/-- Record whose part number is the array-index string `"1"`. -/
def cexTieB : SubmissionRecord := { partNumber := some "1" }

/-- Snapshot in which key `"2"` first occurs before key `"1"`, with equal
counts. -/
def cexTieData : List SubmissionRecord := [cexTieA, cexTieB]

/-- Record carrying both date fields: a stale `date` and a fresh
`removalDate`. -/
def cexDateRecord : SubmissionRecord :=
  { date := some "2020-01-01", removalDate := some "2024-02-01" }

/-- Evaluation instant for the date-precedence counterexample: midnight
of 2024-02-01. -/
def cexDateNow : Int := civilDays 2024 2 1 * msPerDay

/-- Evaluation instant for the trend examples: midnight of 2024-03-01,
whose 30-day cutoff is midnight of 2024-01-31. -/
def trendNow : Int := civilDays 2024 3 1 * msPerDay

/-- Record carrying only a calendar date. -/
def datedRecord (s : String) : SubmissionRecord := { date := some s }

/-- Snapshot with `totalCount = 10` and, at `trendNow`, exactly
`recentCount = 6`. -/
def trendSnapshot6of10 : List SubmissionRecord :=
  List.replicate 6 (datedRecord "2024-02-20") ++ List.replicate 4 (datedRecord "2020-01-01")

/-- Snapshot with `totalCount = 10` and, at `trendNow`, exactly
`recentCount = 7`. -/
def trendSnapshot7of10 : List SubmissionRecord :=
  List.replicate 7 (datedRecord "2024-02-20") ++ List.replicate 3 (datedRecord "2020-01-01")

/-- Record dated exactly on the 30-day cutoff of `trendNow`. -/
def boundaryRecord : SubmissionRecord := datedRecord "2024-01-31"

/-- Snapshot producing an mfc tie between the non-index keys `"B"`
(first occurrence earlier) and `"A"`. -/
def tieWitnessData : List SubmissionRecord :=
  [{ mfc := some "B" }, { mfc := some "A" }]

/-- Record whose MFC is the string `"__proto__"`: counting it hits the
inherited accessor of the plain-object counter and the record is
silently dropped from the frequency table. -/
def protoRecord : SubmissionRecord := { mfc := some "__proto__" }

/-- First record of the export snapshot, carrying a `removalDate`. -/
def exportHeadRecord : SubmissionRecord :=
  { id := some "1", mfc := some "HLN01", removalDate := some "2024-01-15",
    partNumber := some "MOT-001" }

/-- Snapshot of three records, one of whose comments contains a comma. -/
def exportSnapshot : List SubmissionRecord :=
  [exportHeadRecord,
   { id := some "2", mfc := some "EMK01", date := some "2024-01-20",
     partNumber := some "PCB-445", comments := some "ok, replaced" },
   { id := some "3", mfc := some "BS01", date := some "2024-02-01",
     partNumber := some "MOT-001" }]

/-! Frequency-table lemmas. -/

lemma any_eq_true_iff_mem_keysOf {t : PlainTable} {k : String} :
    t.any (fun p => p.1 == k) = true ↔ k ∈ keysOf t := by
  simp only [keysOf, List.any_eq_true, List.mem_map, beq_iff_eq]

lemma keysOf_bump_of_mem {t : PlainTable} {k : String} (h : k ∈ keysOf t) :
    keysOf (plainBump t k) = keysOf t := by
  unfold plainBump
  rw [if_pos (any_eq_true_iff_mem_keysOf.mpr h)]
  unfold keysOf
  rw [List.map_map]
  apply List.map_congr_left
  intro p _
  by_cases hp : p.1 == k <;> simp [Function.comp, hp]

lemma keysOf_bump_of_not_mem {t : PlainTable} {k : String} (h : k ∉ keysOf t) :
    keysOf (plainBump t k) = keysOf t ++ [k] := by
  unfold plainBump
  rw [if_neg (fun hc => h (any_eq_true_iff_mem_keysOf.mp hc))]
  simp [keysOf]

lemma nodup_keysOf_bump {t : PlainTable} {k : String} (h : (keysOf t).Nodup) :
    (keysOf (plainBump t k)).Nodup := by
  by_cases hk : k ∈ keysOf t
  · rw [keysOf_bump_of_mem hk]; exact h
  · rw [keysOf_bump_of_not_mem hk]
    simp [List.nodup_append, h, hk]

lemma nodup_keysOf_foldl : ∀ (l : List String) (t : PlainTable),
    (keysOf t).Nodup → (keysOf (l.foldl plainBump t)).Nodup
  | [], _, h => h
  | _ :: l, t, h => nodup_keysOf_foldl l (plainBump t _) (nodup_keysOf_bump h)

lemma nodup_keysOf_buildCounts (ks : List String) : (keysOf (plainCounts ks)).Nodup :=
  nodup_keysOf_foldl ks [] (by simp [keysOf])

lemma sum_snd_if_bump {k : String} : ∀ {t : PlainTable}, (keysOf t).Nodup → k ∈ keysOf t →
    (t.map (fun q => if q.1 == k then q.2 + 1 else q.2)).sum = (t.map Prod.snd).sum + 1 := by
  intro t
  induction t with
  | nil => intro _ hk; simp [keysOf] at hk
  | cons p t ih =>
    intro hnd hk
    have hnd1 : p.1 ∉ List.map Prod.fst t := by
      simp only [keysOf, List.map_cons, List.nodup_cons] at hnd
      exact hnd.1
    have hnd2 : (keysOf t).Nodup := by
      simp only [keysOf, List.map_cons, List.nodup_cons] at hnd
      exact hnd.2
    have hk2 : k = p.1 ∨ k ∈ keysOf t := by
      simpa [keysOf] using hk
    by_cases hpk : p.1 = k
    · have hmap : t.map (fun q => if q.1 == k then q.2 + 1 else q.2) = t.map Prod.snd := by
        apply List.map_congr_left
        intro q hq
        have hq1 : q.1 ≠ k := by
          intro hqk
          apply hnd1
          have hm : q.1 ∈ List.map Prod.fst t := List.mem_map_of_mem Prod.fst hq
          rwa [hqk, ← hpk] at hm
        simp [hq1]
      simp only [List.map_cons, List.sum_cons, hmap, hpk]
      simp
      omega
    · rcases hk2 with h | h
      · exact absurd h.symm hpk
      · have hbeq : (p.1 == k) = false := by simp [hpk]
        have ih2 := ih hnd2 h
        simp only [List.map_cons, List.sum_cons, hbeq, ih2]
        simp
        omega

lemma sum_snd_bump {t : PlainTable} {k : String} (hnd : (keysOf t).Nodup) :
    ((plainBump t k).map Prod.snd).sum = (t.map Prod.snd).sum + 1 := by
  by_cases hk : k ∈ keysOf t
  · unfold plainBump
    rw [if_pos (any_eq_true_iff_mem_keysOf.mpr hk)]
    rw [List.map_map]
    have hcomp : t.map (Prod.snd ∘ fun p => if p.1 == k then (p.1, p.2 + 1) else p)
        = t.map (fun q => if q.1 == k then q.2 + 1 else q.2) := by
      apply List.map_congr_left
      intro q _
      by_cases hq : q.1 == k <;> simp [Function.comp, hq]
    rw [hcomp, sum_snd_if_bump hnd hk]
  · unfold plainBump
    rw [if_neg (fun hc => hk (any_eq_true_iff_mem_keysOf.mp hc))]
    simp

lemma sum_snd_foldl : ∀ (l : List String) (t : PlainTable), (keysOf t).Nodup →
    ((l.foldl plainBump t).map Prod.snd).sum = (t.map Prod.snd).sum + l.length
  | [], _, _ => by simp
  | k :: l, t, h => by
    have := sum_snd_foldl l (plainBump t k) (nodup_keysOf_bump h)
    simp only [List.foldl_cons, this, sum_snd_bump h, List.length_cons]
    omega

lemma sum_snd_buildCounts (ks : List String) :
    ((plainCounts ks).map Prod.snd).sum = ks.length := by
  have := sum_snd_foldl ks [] (by simp [keysOf])
  simpa [plainCounts] using this

lemma filter_key_eq_single {k : String} {n : Nat} : ∀ {t : PlainTable},
    (keysOf t).Nodup → (k, n) ∈ t → t.filter (fun p => p.1 == k) = [(k, n)] := by
  intro t
  induction t with
  | nil => intro _ hm; simp at hm
  | cons p t ih =>
    intro hnd hm
    have hnd1 : p.1 ∉ List.map Prod.fst t := by
      simp only [keysOf, List.map_cons, List.nodup_cons] at hnd
      exact hnd.1
    have hnd2 : (keysOf t).Nodup := by
      simp only [keysOf, List.map_cons, List.nodup_cons] at hnd
      exact hnd.2
    rcases List.mem_cons.mp hm with hm | hm
    · subst hm
      have hnil : t.filter (fun p => p.1 == k) = [] := by
        rw [List.filter_eq_nil_iff]
        intro q hq
        simp only [beq_iff_eq]
        intro hqk
        apply hnd1
        have hmm : q.1 ∈ List.map Prod.fst t := List.mem_map_of_mem Prod.fst hq
        simpa [hqk] using hmm
      simp [List.filter_cons, hnil]
    · have hk : k ∈ keysOf t := by
        have : Prod.fst (k, n) ∈ List.map Prod.fst t := List.mem_map_of_mem Prod.fst hm
        simpa [keysOf] using this
      have hp1 : (p.1 == k) = false := by
        simp only [beq_eq_false_iff_ne]
        intro hpk
        exact hnd1 (by simpa [keysOf, hpk] using hk)
      simp [List.filter_cons, hp1, ih hnd2 hm]

lemma assocVal_eq_of_mem {t : PlainTable} {k : String} {n : Nat}
    (hnd : (keysOf t).Nodup) (hm : (k, n) ∈ t) : assocVal t k = n := by
  unfold assocVal
  rw [filter_key_eq_single hnd hm]
  simp

lemma assocVal_bump {t : PlainTable} {k0 k : String} (hnd : (keysOf t).Nodup) :
    assocVal (plainBump t k0) k = assocVal t k + (if k = k0 then 1 else 0) := by
  by_cases h0 : k0 ∈ keysOf t
  · unfold plainBump
    rw [if_pos (any_eq_true_iff_mem_keysOf.mpr h0)]
    unfold assocVal
    rw [List.filter_map]
    have hpred : t.filter
        ((fun p => p.1 == k) ∘ fun p => if p.1 == k0 then (p.1, p.2 + 1) else p)
        = t.filter (fun p => p.1 == k) := by
      apply List.filter_congr
      intro q _
      by_cases hq : q.1 == k0 <;> simp [Function.comp, hq]
    rw [hpred]
    by_cases hk : k = k0
    · subst hk
      have hex : ∃ v, (k, v) ∈ t := by simpa [keysOf, List.mem_map] using h0
      rcases hex with ⟨v, hqm⟩
      rw [filter_key_eq_single hnd hqm]
      simp
    · have hmap : (t.filter (fun p => p.1 == k)).map
          (fun p => if p.1 == k0 then (p.1, p.2 + 1) else p)
          = t.filter (fun p => p.1 == k) := by
        conv_rhs => rw [← List.map_id (t.filter (fun p => p.1 == k))]
        apply List.map_congr_left
        intro q hq
        have hq1 : q.1 = k := by
          have := (List.mem_filter.mp hq).2
          simpa using this
        have : (q.1 == k0) = false := by
          simp [hq1, hk]
        simp [this]
      rw [hmap]
      simp [hk]
  · unfold plainBump
    rw [if_neg (fun hc => h0 (any_eq_true_iff_mem_keysOf.mp hc))]
    unfold assocVal
    rw [List.filter_append]
    by_cases hk : k = k0
    · subst hk
      simp [List.filter_cons]
    · have : (k0 == k) = false := by
        simp only [beq_eq_false_iff_ne]
        exact fun h => hk h.symm
      simp [List.filter_cons, this, hk]

lemma assocVal_foldl : ∀ (l : List String) (t : PlainTable), (keysOf t).Nodup →
    ∀ k, assocVal (l.foldl plainBump t) k = assocVal t k + l.count k
  | [], _, _, _ => by simp
  | k0 :: l, t, h, k => by
    have hrec := assocVal_foldl l (plainBump t k0) (nodup_keysOf_bump h) k
    simp only [List.foldl_cons, hrec, assocVal_bump h, List.count_cons]
    by_cases hk : k = k0
    · simp [hk]
      omega
    · have : (k0 == k) = false := by
        simp only [beq_eq_false_iff_ne]
        exact fun h => hk h.symm
      simp [hk, this]

lemma assocVal_nil (k : String) : assocVal [] k = 0 := by
  simp [assocVal]

lemma buildCounts_val {ks : List String} {k : String} {n : Nat}
    (hm : (k, n) ∈ plainCounts ks) : n = ks.count k := by
  have hnd := nodup_keysOf_buildCounts ks
  have h1 : assocVal (plainCounts ks) k = n := assocVal_eq_of_mem hnd hm
  have h2 := assocVal_foldl ks [] (by simp [keysOf]) k
  rw [assocVal_nil] at h2
  simp only [plainCounts] at h1
  omega

lemma one_le_snd_bump {t : PlainTable} {k : String}
    (h : ∀ p ∈ t, 1 ≤ p.2) : ∀ p ∈ plainBump t k, 1 ≤ p.2 := by
  unfold plainBump
  split
  · intro p hp
    rcases List.mem_map.mp hp with ⟨q, hq, rfl⟩
    have hq2 := h q hq
    by_cases hqk : (q.1 == k) = true
    · simp [hqk]
    · simp [hqk]
      omega
  · intro p hp
    rcases List.mem_append.mp hp with hp | hp
    · exact h p hp
    · simp at hp
      simp [hp]

lemma one_le_snd_foldl : ∀ (l : List String) (t : PlainTable),
    (∀ p ∈ t, 1 ≤ p.2) → ∀ p ∈ l.foldl plainBump t, 1 ≤ p.2
  | [], _, h => h
  | _ :: l, t, h => one_le_snd_foldl l (plainBump t _) (one_le_snd_bump h)

lemma one_le_snd_buildCounts {ks : List String} : ∀ p ∈ plainCounts ks, 1 ≤ p.2 :=
  one_le_snd_foldl ks [] (by simp)

lemma keysOf_foldl : ∀ (l : List String) (t : PlainTable),
    keysOf (l.foldl plainBump t)
      = keysOf t ++ (firstKeys l).filter (fun x => decide (x ∉ keysOf t))
  | [], t => by simp [firstKeys]
  | k :: l, t => by
    rw [List.foldl_cons, keysOf_foldl l (plainBump t k)]
    by_cases hk : k ∈ keysOf t
    · rw [keysOf_bump_of_mem hk]
      congr 1
      show (firstKeys l).filter (fun x => decide (x ∉ keysOf t))
        = (k :: (firstKeys l).filter (fun x => decide (x ≠ k))).filter
            (fun x => decide (x ∉ keysOf t))
      rw [List.filter_cons]
      have hkf : (decide (k ∉ keysOf t)) = false := by simp [hk]
      rw [hkf]
      simp only [Bool.false_eq_true, if_false]
      rw [List.filter_filter]
      apply List.filter_congr
      intro x _
      by_cases hx : x ∈ keysOf t
      · simp [hx]
      · have hxk : x ≠ k := fun hc => hx (hc ▸ hk)
        simp [hx, hxk]
    · rw [keysOf_bump_of_not_mem hk, List.append_assoc]
      congr 1
      show [k] ++ (firstKeys l).filter (fun x => decide (x ∉ keysOf t ++ [k]))
        = (k :: (firstKeys l).filter (fun x => decide (x ≠ k))).filter
            (fun x => decide (x ∉ keysOf t))
      rw [List.filter_cons]
      have hkf : (decide (k ∉ keysOf t)) = true := by simp [hk]
      rw [hkf]
      simp only [if_true]
      rw [List.filter_filter]
      show k :: (firstKeys l).filter (fun x => decide (x ∉ keysOf t ++ [k]))
        = k :: (firstKeys l).filter fun x => decide (x ∉ keysOf t) && decide (x ≠ k)
      congr 1
      apply List.filter_congr
      intro x _
      by_cases hx : x ∈ keysOf t
      · simp [hx, List.mem_append]
      · by_cases hxk : x = k
        · simp [hxk, List.mem_append]
        · simp [hx, hxk, List.mem_append]

lemma keysOf_buildCounts (ks : List String) : keysOf (plainCounts ks) = firstKeys ks := by
  have := keysOf_foldl ks []
  simp only [plainCounts, keysOf, List.map_nil, List.nil_append] at this ⊢
  rw [this]
  apply List.filter_eq_self.mpr
  intro x _
  simp

lemma mem_firstKeys {x : String} : ∀ {l : List String}, x ∈ firstKeys l ↔ x ∈ l := by
  intro l
  induction l with
  | nil => simp [firstKeys]
  | cons k l ih =>
    simp only [firstKeys, List.mem_cons, List.mem_filter, decide_eq_true_eq]
    by_cases hx : x = k
    · simp [hx]
    · simp [hx, ih]

lemma nodup_firstKeys : ∀ (l : List String), (firstKeys l).Nodup
  | [] => by simp [firstKeys]
  | k :: l => by
    simp only [firstKeys, List.nodup_cons]
    constructor
    · intro hc
      have := (List.mem_filter.mp hc).2
      simp at this
    · exact (nodup_firstKeys l).filter _

lemma firstKeys_pair_sublist {k1 k2 : String} (hne : k1 ≠ k2) :
    ∀ {l : List String}, k2 ∈ l →
      List.indexOf k1 l < List.indexOf k2 l → [k1, k2] <+ firstKeys l := by
  intro l
  induction l with
  | nil => intro h; simp at h
  | cons a l ih =>
    intro hk2 hlt
    by_cases h1 : a = k1
    · have hk2l : k2 ∈ l := by
        rcases List.mem_cons.mp hk2 with h | h
        · exact absurd (h.trans h1).symm hne
        · exact h
      rw [h1]
      show [k1, k2] <+ k1 :: (firstKeys l).filter (fun x => decide (x ≠ k1))
      apply List.Sublist.cons₂
      rw [List.singleton_sublist, List.mem_filter]
      refine ⟨mem_firstKeys.mpr hk2l, by simpa using hne.symm⟩
    · by_cases h2 : a = k2
      · exfalso
        have hz : List.indexOf k2 (a :: l) = 0 := by
          have : (a == k2) = true := by simp [h2]
          simp [List.indexOf_cons, this]
        omega
      · have hi1 : List.indexOf k1 (a :: l) = List.indexOf k1 l + 1 := by
          have : (a == k1) = false := by simp [h1]
          simp [List.indexOf_cons, this]
        have hi2 : List.indexOf k2 (a :: l) = List.indexOf k2 l + 1 := by
          have : (a == k2) = false := by simp [h2]
          simp [List.indexOf_cons, this]
        have hk2l : k2 ∈ l := by
          rcases List.mem_cons.mp hk2 with h | h
          · exact absurd h.symm h2
          · exact h
        have hsub := ih hk2l (by omega)
        show [k1, k2] <+ a :: (firstKeys l).filter (fun x => decide (x ≠ a))
        apply List.Sublist.cons
        have hfil := hsub.filter (fun x => decide (x ≠ a))
        have hpair : [k1, k2].filter (fun x => decide (x ≠ a)) = [k1, k2] := by
          have hk1a : k1 ≠ a := fun hc => h1 hc.symm
          have hk2a : k2 ≠ a := fun hc => h2 hc.symm
          simp [List.filter_cons, hk1a, hk2a]
        rwa [hpair] at hfil

/-! Lemmas about property enumeration and the stable sort. -/

lemma jsEntries_perm (t : PlainTable) : plainJsEntries t ~ t := by
  unfold plainJsEntries
  exact ((List.perm_insertionSort keyNumLe _).append_right _).trans
    (List.filter_append_perm _ t)

lemma rankedEntries_perm (ks : List String) : plainRankedEntries ks ~ plainCounts ks :=
  (List.perm_insertionSort plainCountDescRel _).trans (jsEntries_perm _)

lemma nodup_fst_rankedEntries (ks : List String) :
    ((plainRankedEntries ks).map Prod.fst).Nodup := by
  have hperm : (plainRankedEntries ks).map Prod.fst ~ (plainCounts ks).map Prod.fst :=
    (rankedEntries_perm ks).map Prod.fst
  exact hperm.nodup_iff.mpr (nodup_keysOf_buildCounts ks)

lemma pair_sublist_jsEntries {t : PlainTable} {e1 e2 : String × Nat}
    (h : [e1, e2] <+ t)
    (h1 : isArrayIndexKey e1.1 = false) (h2 : isArrayIndexKey e2.1 = false) :
    [e1, e2] <+ plainJsEntries t := by
  have hf := h.filter (fun p => !isArrayIndexKey p.1)
  have hpair : [e1, e2].filter (fun p => !isArrayIndexKey p.1) = [e1, e2] := by
    simp [List.filter_cons, h1, h2]
  rw [hpair] at hf
  exact hf.trans (List.sublist_append_right _ _)

lemma rankedEntries_tie_order {ks : List String} {k1 k2 : String}
    (hne : k1 ≠ k2)
    (h1 : isArrayIndexKey k1 = false) (h2 : isArrayIndexKey k2 = false)
    (hk2 : k2 ∈ ks)
    (hidx : List.indexOf k1 ks < List.indexOf k2 ks)
    (hcnt : ks.count k1 = ks.count k2) :
    [k1, k2] <+ (plainRankedEntries ks).map Prod.fst := by
  have hkeys : [k1, k2] <+ keysOf (plainCounts ks) := by
    rw [keysOf_buildCounts]
    exact firstKeys_pair_sublist hne hk2 hidx
  rcases List.sublist_map_iff.mp hkeys with ⟨l2, hsub, heq⟩
  match l2, heq with
  | [e1, e2], heq =>
    have he1 : e1.1 = k1 := by
      have := congrArg (fun l => l.headI) heq
      simpa using this.symm
    have he2 : e2.1 = k2 := by
      have := congrArg (fun l => l.getLast?) heq
      simpa using (Option.some.inj this).symm
    have hm1 : e1 ∈ plainCounts ks := hsub.subset (by simp)
    have hm2 : e2 ∈ plainCounts ks := hsub.subset (by simp)
    have hv1 : e1.2 = ks.count k1 := by
      have : (k1, e1.2) ∈ plainCounts ks := by
        rw [← he1]
        exact hm1
      exact buildCounts_val this
    have hv2 : e2.2 = ks.count k2 := by
      have : (k2, e2.2) ∈ plainCounts ks := by
        rw [← he2]
        exact hm2
      exact buildCounts_val this
    have hje : [e1, e2] <+ plainJsEntries (plainCounts ks) :=
      pair_sublist_jsEntries hsub (he1 ▸ h1) (he2 ▸ h2)
    have hrel : plainCountDescRel e1 e2 := by
      show e2.2 ≤ e1.2
      rw [hv1, hv2, hcnt]
    have hsorted : [e1, e2] <+ plainRankedEntries ks :=
      List.pair_sublist_insertionSort hrel hje
    have := hsorted.map Prod.fst
    simpa [he1, he2] using this

lemma pair_sublist_take {α : Type} {a b : α} (hne : a ≠ b) :
    ∀ {l : List α} {n : Nat}, l.Nodup → [a, b] <+ l → b ∈ l.take n → [a, b] <+ l.take n := by
  intro l
  induction l with
  | nil => intro n _ hs _; simp at hs
  | cons x l ih =>
    intro n hnd hs hb
    cases n with
    | zero => simp at hb
    | succ m =>
      simp only [List.take_succ_cons] at hb ⊢
      have hndl : l.Nodup := (List.nodup_cons.mp hnd).2
      have hxl : x ∉ l := (List.nodup_cons.mp hnd).1
      cases hs with
      | cons _ hs2 =>
        have hbl : b ∈ l := hs2.subset (by simp)
        have hbt : b ∈ l.take m := by
          rcases List.mem_cons.mp hb with h | h
          · exact absurd (h ▸ hbl) hxl
          · exact h
        exact (ih hndl hs2 hbt).cons x
      | cons₂ _ hs2 =>
        have hbt : b ∈ l.take m := by
          rcases List.mem_cons.mp hb with h | h
          · exact absurd h.symm hne
          · exact h
        exact (List.singleton_sublist.mpr hbt).cons₂ a

/-! Length and emptiness lemmas. -/

lemma length_buildCounts (ks : List String) :
    (plainCounts ks).length = (firstKeys ks).length := by
  have h1 : (keysOf (plainCounts ks)).length = (firstKeys ks).length :=
    congrArg List.length (keysOf_buildCounts ks)
  simpa [keysOf] using h1

lemma length_firstKeys_eq_card (ks : List String) :
    (firstKeys ks).length = ks.toFinset.card := by
  rw [← List.toFinset_card_of_nodup (nodup_firstKeys ks)]
  congr 1
  ext x
  simp [List.mem_toFinset, mem_firstKeys]

lemma length_rankedEntries (ks : List String) :
    (plainRankedEntries ks).length = ks.toFinset.card := by
  rw [(rankedEntries_perm ks).length_eq, length_buildCounts, length_firstKeys_eq_card]

lemma rankedEntries_ne_nil {ks : List String} (h : ks ≠ []) :
    plainRankedEntries ks ≠ [] := by
  intro hc
  have h0 : (plainRankedEntries ks).length = 0 := by rw [hc]; rfl
  rw [length_rankedEntries] at h0
  rcases ks with _ | ⟨k, l⟩
  · exact h rfl
  · have : k ∈ (k :: l).toFinset := by simp
    have := Finset.card_pos.mpr ⟨k, this⟩
    omega

lemma one_le_snd_rankedEntries {ks : List String} :
    ∀ p ∈ plainRankedEntries ks, 1 ≤ p.2 := by
  intro p hp
  exact one_le_snd_buildCounts p ((rankedEntries_perm ks).mem_iff.mp hp)

/-! Projections of `performAIAnalysis` on a nonempty snapshot. -/

lemma performAIAnalysis_of_ne_nil {now : Int} {data : List SubmissionRecord}
    (h : data ≠ []) :
    performAIAnalysis now data =
      { topParts := ((rankedEntries (data.map (fun r => jsKey r.partNumber))).take 5).map mkEntry
        topAssets := ((rankedEntries (data.map (fun r => jsKey r.removedFrom))).take 5).map mkEntry
        trends := ⟨if 5 * (data.filter (isRecent now)).length > 3 * data.length then
            "Increasing failure rate" else "Stable failure rate",
          (data.filter (isRecent now)).length, data.length⟩
        mfcStats := (rankedEntries (data.map (fun r => jsKey r.mfc))).map mkEntry } := by
  have hempty : data.isEmpty = false := by
    cases data
    · exact absurd rfl h
    · rfl
  simp [performAIAnalysis, hempty]

/-! Transfer between the faithful counter and its numeric shadow on
snapshots whose keys are all ordinary dictionary keys. -/

lemma any_map_numEntry (t : PlainTable) (k : String) :
    ((t.map numEntry).any (fun p => p.1 == k)) = t.any (fun p => p.1 == k) := by
  induction t with
  | nil => rfl
  | cons p t ih => simp [numEntry, ih]

lemma isPlainKey_spec {k : String} (h : isPlainKey k = true) :
    k ≠ "__proto__" ∧ isProtoFnName k = false := by
  constructor
  · intro hc
    rw [hc] at h
    exact absurd h (by decide)
  · by_contra hc
    have hb : isProtoFnName k = true := by
      cases hb : isProtoFnName k
      · exact absurd hb hc
      · rfl
    simp [isPlainKey, hb] at h

lemma bump_numEntry {t : PlainTable} {k : String} (h : isPlainKey k = true) :
    bump (t.map numEntry) k = (plainBump t k).map numEntry := by
  obtain ⟨h1, h2⟩ := isPlainKey_spec h
  unfold bump plainBump
  rw [any_map_numEntry]
  by_cases hin : t.any (fun p => p.1 == k) = true
  · rw [if_pos hin, if_pos hin, List.map_map, List.map_map]
    apply List.map_congr_left
    intro p _
    by_cases hp : (p.1 == k) = true <;>
      simp [Function.comp, numEntry, hp, jsIncrement]
  · rw [if_neg hin, if_neg hin, if_neg h1, if_neg]
    · simp [numEntry]
    · intro hc
      rw [h2] at hc
      exact Bool.false_ne_true hc

lemma buildCounts_numEntry_aux : ∀ (ks : List String) (t : PlainTable),
    (∀ k ∈ ks, isPlainKey k = true) →
    ks.foldl bump (t.map numEntry) = (ks.foldl plainBump t).map numEntry
  | [], _, _ => rfl
  | k :: ks, t, h => by
    rw [List.foldl_cons, List.foldl_cons, bump_numEntry (h k (by simp))]
    exact buildCounts_numEntry_aux ks (plainBump t k) (fun x hx => h x (by simp [hx]))

lemma buildCounts_numEntry {ks : List String}
    (h : ∀ k ∈ ks, isPlainKey k = true) :
    buildCounts ks = (plainCounts ks).map numEntry := by
  have := buildCounts_numEntry_aux ks [] h
  simpa [buildCounts, plainCounts] using this

lemma jsEntries_numEntry (t : PlainTable) :
    jsEntries (t.map numEntry) = (plainJsEntries t).map numEntry := by
  unfold jsEntries plainJsEntries
  have hidx : (t.map numEntry).filter (fun p => isArrayIndexKey p.1)
      = (t.filter (fun p => isArrayIndexKey p.1)).map numEntry := by
    rw [List.filter_map]
    rfl
  have hstr : (t.map numEntry).filter (fun p => !isArrayIndexKey p.1)
      = (t.filter (fun p => !isArrayIndexKey p.1)).map numEntry := by
    rw [List.filter_map]
    rfl
  rw [hidx, hstr, List.map_append]
  congr 1
  exact (List.map_insertionSort keyNumLe keyNumLe numEntry _
    (fun a _ b _ => Iff.rfl)).symm

lemma countDescRel_numEntry (p q : String × Nat) :
    plainCountDescRel p q ↔ countDescRel (numEntry p) (numEntry q) := by
  show q.2 ≤ p.2 ↔ sortCompare (numEntry p) (numEntry q) ≤ 0
  simp only [sortCompare, numEntry, jsToNum]
  omega

lemma rankedEntries_numEntry {ks : List String}
    (h : ∀ k ∈ ks, isPlainKey k = true) :
    rankedEntries ks = (plainRankedEntries ks).map numEntry := by
  unfold rankedEntries plainRankedEntries
  rw [buildCounts_numEntry h, jsEntries_numEntry]
  exact (List.map_insertionSort plainCountDescRel countDescRel numEntry _
    (fun a _ b _ => countDescRel_numEntry a b)).symm

lemma plainKeys_of_record_map {data : List SubmissionRecord}
    {f : SubmissionRecord → String}
    (h : ∀ r ∈ data, isPlainKey (f r) = true) :
    ∀ k ∈ data.map f, isPlainKey k = true := by
  intro k hk
  rcases List.mem_map.mp hk with ⟨r, hr, rfl⟩
  exact h r hr

/-! Claim theorems. -/

/-- C1 (amended): for the empty snapshot, `performAIAnalysis` returns the
sentinel entry `{name: "No data yet", count: 0}` for each of the THREE
ranked dimensions the result object carries (part number, asset, MFC)
together with the trend sentinel
`{trend: "Insufficient data", recentCount: 0, totalCount: 0}`; the result
carries no reason dimension (reason counts are tallied only on the
nonempty path and are never part of the returned object). -/
theorem claim1_amended (now : Int) :
    performAIAnalysis now [] =
      { topParts := [noDataEntry], topAssets := [noDataEntry],
        trends := ⟨"Insufficient data", 0, 0⟩, mfcStats := [noDataEntry] } := rfl

/-- C1 counterexample: the claim asks for a sentinel entry for each of
FOUR tracked dimensions, reason included, and for the result to equal
exactly that object; but the result object of the code carries only
three ranked dimensions and none of them is the reason dimension, so the
claimed four-dimension sentinel object cannot be the result. -/
theorem claim1_counterexample :
    "reasonRemove" ∈ claimedSentinelDims.map Prod.fst
    ∧ ((resultRankedDims (performAIAnalysis 0 [])).map Prod.fst).contains
        "reasonRemove" = false
    ∧ (resultRankedDims (performAIAnalysis 0 [])).length = 3
    ∧ claimedSentinelDims.length = 4 := by
  decide

/-- C2 counterexample: for a record carrying both fields, the claim says
`removalDate` determines recency; evaluated at midnight of 2024-02-01,
the record with `removalDate = "2024-02-01"` (recent) and
`date = "2020-01-01"` (stale) is classified NOT recent by the code, while
the claim-following classifier calls it recent: the code gives `date`
precedence, not `removalDate`. -/
theorem claim2_counterexample :
    cexDateRecord.removalDate = some "2024-02-01"
    ∧ cexDateRecord.date = some "2020-01-01"
    ∧ isRecentClaim cexDateNow cexDateRecord = true
    ∧ isRecent cexDateNow cexDateRecord = false := by
  decide

/-- C2 (amended): the effective date of the Trend Classifier is parsed
from the `date` field, with `removalDate` used only as the fallback
(when both are present and `date` is nonempty, `date` determines
recency), and a record is recent iff its effective timestamp satisfies
`t >= now - 30 days` with an inclusive boundary. -/
theorem claim2_amended (now : Int) (r : SubmissionRecord) :
    (∀ s, r.date = some s → s ≠ "" →
      (isRecent now r = true ↔
        ∃ d, parseISODate s = some d ∧ d * msPerDay ≥ now - 30 * msPerDay))
    ∧ ((r.date = none ∨ r.date = some "") →
      (isRecent now r = true ↔
        ∃ s d, r.removalDate = some s ∧ parseISODate s = some d ∧
          d * msPerDay ≥ now - 30 * msPerDay))
    ∧ (∀ d, parseDateMs (effectiveDateStr r) = some d → d = now - 30 * msPerDay →
        isRecent now r = true) := by
  refine ⟨?_, ?_, ?_⟩
  · intro s hs hne
    cases hp : parseISODate s with
    | none => simp [isRecent, effectiveDateStr, jsOrOpt, parseDateMs, hs, hne, hp]
    | some d => simp [isRecent, effectiveDateStr, jsOrOpt, parseDateMs, hs, hne, hp]
  · intro hd
    have heff : effectiveDateStr r = r.removalDate := by
      rcases hd with hd | hd <;> simp [effectiveDateStr, jsOrOpt, hd]
    cases hrm : r.removalDate with
    | none => simp [isRecent, heff, hrm, parseDateMs]
    | some s =>
      cases hp : parseISODate s with
      | none => simp [isRecent, heff, hrm, parseDateMs, hp]
      | some d => simp [isRecent, heff, hrm, parseDateMs, hp]
  · intro d hd heq
    simp [isRecent, hd, heq]

/-- C2 amended witness: at `trendNow` (midnight of 2024-03-01), the
record dated `"2024-01-31"` sits exactly on the inclusive 30-day
boundary. -/
theorem claim2_amended_witness :
    isRecent trendNow boundaryRecord = true ↔
      ∃ d, parseISODate "2024-01-31" = some d ∧
        d * msPerDay ≥ trendNow - 30 * msPerDay :=
  (claim2_amended trendNow boundaryRecord).1 "2024-01-31" rfl (by decide)

set_option maxRecDepth 8000

/-- C8: in the exported flat file every comma of the Comments field is
replaced by a semicolon and no other escaping happens; for the
three-record snapshot whose second comment is `"ok, replaced"`, the
export contains `"ok; replaced"`, no longer contains the original
comma form, and splitting the document by newline yields the header plus
three record lines. -/
theorem claim8_export_roundtrip :
    (∀ s : String, (replaceCommas s).data.count ',' = 0)
    ∧ "ok; replaced".data <:+: (csvContent exportSnapshot).data
    ∧ decide ("ok, replaced".data <:+: (csvContent exportSnapshot).data) = false
    ∧ (splitNewlines (csvContent exportSnapshot)).length = 1 + exportSnapshot.length
    ∧ (exportSnapshot.map (fun r => r.comments)).contains (some "ok, replaced") = true := by
  refine ⟨?_, by decide, by decide, by decide, by decide⟩
  intro s
  rw [List.count_eq_zero]
  intro hc
  rcases List.mem_map.mp hc with ⟨c, _, hcc⟩
  by_cases h : c = ','
  · simp [h] at hcc
  · simp [h] at hcc

/-- C3: on a nonempty snapshot the trend label is
"Increasing failure rate" iff `recentCount > totalCount * 0.6` holds
strictly (as the exact rational comparison `5 * recent > 3 * total`) and
"Stable failure rate" otherwise; in particular a 10-record snapshot with
6 recent records is classified stable and one with 7 recent records is
classified increasing. -/
theorem claim3_trend_threshold :
    (∀ (now : Int) (data : List SubmissionRecord), data ≠ [] →
      (((performAIAnalysis now data).trends.trend = "Increasing failure rate") ↔
        5 * (performAIAnalysis now data).trends.recentCount >
          3 * (performAIAnalysis now data).trends.totalCount)
      ∧ (((performAIAnalysis now data).trends.trend = "Stable failure rate") ↔
        ¬ 5 * (performAIAnalysis now data).trends.recentCount >
          3 * (performAIAnalysis now data).trends.totalCount))
    ∧ (performAIAnalysis trendNow trendSnapshot6of10).trends =
        ⟨"Stable failure rate", 6, 10⟩
    ∧ (performAIAnalysis trendNow trendSnapshot7of10).trends =
        ⟨"Increasing failure rate", 7, 10⟩ := by
  refine ⟨?_, by decide, by decide⟩
  intro now data h
  rw [performAIAnalysis_of_ne_nil h]
  dsimp only
  by_cases hgt : 5 * (data.filter (isRecent now)).length > 3 * data.length
  · rw [if_pos hgt]
    exact ⟨⟨fun _ => hgt, fun _ => rfl⟩,
      ⟨fun hs => absurd hs (by decide), fun hn => absurd hgt hn⟩⟩
  · rw [if_neg hgt]
    exact ⟨⟨fun hs => absurd hs (by decide), fun hp => absurd hp hgt⟩,
      ⟨fun _ => hgt, fun _ => rfl⟩⟩

/-- C3 witness: the threshold equivalence instantiated on a concrete
one-record snapshot. -/
theorem claim3_trend_threshold_witness :
    ((performAIAnalysis 0 [mockRecord]).trends.trend = "Increasing failure rate") ↔
      5 * (performAIAnalysis 0 [mockRecord]).trends.recentCount >
        3 * (performAIAnalysis 0 [mockRecord]).trends.totalCount :=
  (claim3_trend_threshold.1 0 [mockRecord] (by decide)).1

/-- C5: on a nonempty snapshot, `totalCount` counts every record and
`recentCount` counts exactly the records passing the recency filter,
while a record whose effective date is missing or does not parse is never
recent; hence unparsable-date records are excluded from `recentCount` but
still counted in `totalCount`, and the classifier is total. -/
theorem claim5_unparsable_dates (now : Int) (data : List SubmissionRecord)
    (h : data ≠ []) :
    (performAIAnalysis now data).trends.totalCount = data.length
    ∧ (performAIAnalysis now data).trends.recentCount =
      (data.filter (isRecent now)).length
    ∧ (∀ r : SubmissionRecord,
        parseDateMs (effectiveDateStr r) = none → isRecent now r = false) := by
  rw [performAIAnalysis_of_ne_nil h]
  refine ⟨rfl, rfl, ?_⟩
  intro r hr
  simp [isRecent, hr]

/-- C5 witness: the record with no date at all is counted in the total of
a concrete snapshot. -/
theorem claim5_unparsable_dates_witness :
    (performAIAnalysis 0 [emptyRecord]).trends.totalCount = [emptyRecord].length :=
  (claim5_unparsable_dates 0 [emptyRecord] (by decide)).1

/-- C6 counterexample: for the one-record snapshot whose MFC is
`"__proto__"`, the inherited accessor of the plain-object counter drops
the record, the frequency table stays empty, and the complete MFC
breakdown sums to 0 although the snapshot has size 1 — the record
contributes no count under its selected field value. -/
theorem claim6_counterexample :
    buildCounts ["__proto__"] = []
    ∧ (performAIAnalysis 0 [protoRecord]).mfcStats = []
    ∧ ((performAIAnalysis 0 [protoRecord]).mfcStats.map
        (fun e => e.count.asNum)).sum = 0
    ∧ [protoRecord].length = 1 := by
  decide

/-- C6 (amended): provided no selected key collides with an
`Object.prototype` member name, the counts of a complete frequency table
are numbers summing to the number of records counted, each entry storing
exactly the occurrence count of its key; in particular the complete MFC
breakdown of a nonempty snapshot whose MFC keys are all such ordinary
keys has numeric counts summing to the snapshot size.  Keys that do
collide break the invariant: `"__proto__"` records are dropped and other
prototype member names make the stored count a string. -/
theorem claim6_frequency_sum :
    (∀ ks : List String, (∀ k ∈ ks, isPlainKey k = true) →
      ((buildCounts ks).map (fun p => p.2.asNum)).sum = ks.length
      ∧ ∀ p ∈ buildCounts ks, ∃ n, p.2 = JSVal.num n ∧ n = ks.count p.1)
    ∧ (∀ (now : Int) (data : List SubmissionRecord), data ≠ [] →
        (∀ r ∈ data, isPlainKey (jsKey r.mfc) = true) →
        ((performAIAnalysis now data).mfcStats.map
          (fun e => e.count.asNum)).sum = data.length
        ∧ ∀ e ∈ (performAIAnalysis now data).mfcStats,
            ∃ n, e.count = JSVal.num n) := by
  constructor
  · intro ks hk
    rw [buildCounts_numEntry hk]
    constructor
    · rw [List.map_map]
      have hcomp : ((fun p : String × JSVal => p.2.asNum) ∘ numEntry)
          = (Prod.snd : String × Nat → Nat) := rfl
      rw [hcomp, sum_snd_buildCounts]
    · intro p hp
      rcases List.mem_map.mp hp with ⟨q, hq, rfl⟩
      exact ⟨q.2, rfl, buildCounts_val hq⟩
  · intro now data h hplain
    have hks := plainKeys_of_record_map hplain
    rw [performAIAnalysis_of_ne_nil h]
    dsimp only
    rw [rankedEntries_numEntry hks]
    constructor
    · rw [List.map_map, List.map_map]
      show ((plainRankedEntries (data.map fun r => jsKey r.mfc)).map
        (Prod.snd : String × Nat → Nat)).sum = data.length
      have hperm := (rankedEntries_perm (data.map fun r => jsKey r.mfc)).map
        (Prod.snd : String × Nat → Nat)
      rw [hperm.sum_eq, sum_snd_buildCounts, List.length_map]
    · intro e he
      rcases List.mem_map.mp he with ⟨p, hp, rfl⟩
      rcases List.mem_map.mp hp with ⟨q, _, rfl⟩
      exact ⟨q.2, rfl⟩

/-- C6 witness: the MFC breakdown of a concrete one-record snapshot with
an ordinary MFC key sums to 1. -/
theorem claim6_frequency_sum_witness :
    ((performAIAnalysis 0 [mockRecord]).mfcStats.map
      (fun e => e.count.asNum)).sum = [mockRecord].length :=
  (claim6_frequency_sum.2 0 [mockRecord] (by decide) (by decide)).1

/-- C7 counterexample: for the nonempty snapshot whose only MFC key is
`"__proto__"`, the program produces an empty MFC breakdown although the
snapshot has one distinct MFC key, so the untruncated list does NOT have
one entry per distinct key. -/
theorem claim7_counterexample :
    (performAIAnalysis 0 [protoRecord]).mfcStats.length = 0
    ∧ ([protoRecord].map (fun r => jsKey r.mfc)).toFinset.card = 1
    ∧ [protoRecord].length = 1 := by
  decide

/-- C7 (amended): on a nonempty snapshot none of whose selected keys
collides with an `Object.prototype` member name, the top-parts and
top-assets lists have exactly `min 5 (number of distinct keys)` entries,
hence never more than 5, while the MFC breakdown is untruncated with one
entry per distinct MFC key; a `"__proto__"` key breaks the counts, as
the counterexample shows. -/
theorem claim7_topn_bound (now : Int) (data : List SubmissionRecord)
    (h : data ≠ [])
    (hp : ∀ r ∈ data, isPlainKey (jsKey r.partNumber) = true)
    (ha : ∀ r ∈ data, isPlainKey (jsKey r.removedFrom) = true)
    (hm : ∀ r ∈ data, isPlainKey (jsKey r.mfc) = true) :
    (performAIAnalysis now data).topParts.length =
      min 5 ((data.map (fun r => jsKey r.partNumber)).toFinset.card)
    ∧ (performAIAnalysis now data).topAssets.length =
      min 5 ((data.map (fun r => jsKey r.removedFrom)).toFinset.card)
    ∧ (performAIAnalysis now data).topParts.length ≤ 5
    ∧ (performAIAnalysis now data).topAssets.length ≤ 5
    ∧ (performAIAnalysis now data).mfcStats.length =
      (data.map (fun r => jsKey r.mfc)).toFinset.card := by
  rw [performAIAnalysis_of_ne_nil h]
  dsimp only
  rw [rankedEntries_numEntry (plainKeys_of_record_map hp),
    rankedEntries_numEntry (plainKeys_of_record_map ha),
    rankedEntries_numEntry (plainKeys_of_record_map hm)]
  refine ⟨?_, ?_, ?_, ?_, ?_⟩
  · simp [List.length_take, length_rankedEntries, inf_eq_min]
  · simp [List.length_take, length_rankedEntries, inf_eq_min]
  · simp only [List.length_map, List.length_take, inf_eq_min]
    exact min_le_left _ _
  · simp only [List.length_map, List.length_take, inf_eq_min]
    exact min_le_left _ _
  · simp [length_rankedEntries]

/-- C7 witness: the top-parts length formula instantiated on a concrete
one-record snapshot with ordinary keys. -/
theorem claim7_topn_bound_witness :
    (performAIAnalysis 0 [mockRecord]).topParts.length =
      min 5 (([mockRecord].map (fun r => jsKey r.partNumber)).toFinset.card) :=
  (claim7_topn_bound 0 [mockRecord] (by decide) (by decide) (by decide)
    (by decide)).1

lemma one_le_snd_take5 {ks : List String} :
    ∀ p ∈ (plainRankedEntries ks).take 5, 1 ≤ p.2 :=
  fun p hp => one_le_snd_rankedEntries p ((List.take_sublist 5 _).subset hp)

lemma one_le_count_entries {l : List (String × Nat)} (hpos : ∀ p ∈ l, 1 ≤ p.2) :
    ∀ e ∈ (l.map numEntry).map mkEntry, ∃ n, e.count = JSVal.num n ∧ 1 ≤ n := by
  intro e he
  rcases List.mem_map.mp he with ⟨p, hp, rfl⟩
  rcases List.mem_map.mp hp with ⟨q, hq, rfl⟩
  exact ⟨q.2, rfl, hpos q hq⟩

lemma showsNoData_map_eq_false {l : List (String × Nat)} (hne : l ≠ [])
    (hpos : ∀ p ∈ l, 1 ≤ p.2) :
    showsNoData ((l.map numEntry).map mkEntry) = false := by
  rcases l with _ | ⟨p, l⟩
  · exact absurd rfl hne
  · have := hpos p (by simp)
    simp only [List.map_cons, showsNoData, mkEntry, numEntry]
    simp only [beq_eq_false_iff_ne, ne_eq, JSVal.num.injEq]
    omega

lemma take5_ne_nil {ks : List String} (h : ks ≠ []) :
    (plainRankedEntries ks).take 5 ≠ [] := by
  have h1 : 1 ≤ (plainRankedEntries ks).length :=
    List.length_pos.mpr (rankedEntries_ne_nil h)
  have h2 : 1 ≤ ((plainRankedEntries ks).take 5).length := by
    rw [List.length_take]
    exact le_min (by omega) h1
  exact List.length_pos.mp (by omega)

lemma map_key_ne_nil {data : List SubmissionRecord} (h : data ≠ [])
    (f : SubmissionRecord → Option String) :
    data.map (fun r => jsKey (f r)) ≠ [] := by
  rcases data with _ | ⟨r, d⟩
  · exact absurd rfl h
  · simp

/-- C10 counterexample: the snapshot holding one record with MFC
`"__proto__"` is nonempty, yet its MFC breakdown is the empty list and
the no-data guard of the formatter is true for it — the
"No data available" branch is reached for a snapshot that is NOT the
empty-snapshot sentinel. -/
theorem claim10_counterexample :
    [protoRecord].length = 1
    ∧ (performAIAnalysis 0 [protoRecord]).mfcStats = []
    ∧ showsNoData (performAIAnalysis 0 [protoRecord]).mfcStats = true := by
  decide

/-- C10 (amended): on a nonempty snapshot none of whose selected keys
collides with an `Object.prototype` member name, every entry of the
three ranked output lists has a numeric count of at least 1 and the
no-data guard of the formatter is false for all of them, while on the
empty snapshot the sentinel makes the guard true and the formatter
returns the no-data message; a colliding key can instead empty a list of
a nonempty snapshot and reach the no-data branch, as the counterexample
shows. -/
theorem claim10_nonzero_counts (now : Int) (data : List SubmissionRecord)
    (h : data ≠ [])
    (hp : ∀ r ∈ data, isPlainKey (jsKey r.partNumber) = true)
    (ha : ∀ r ∈ data, isPlainKey (jsKey r.removedFrom) = true)
    (hm : ∀ r ∈ data, isPlainKey (jsKey r.mfc) = true) :
    (∀ e ∈ (performAIAnalysis now data).topParts,
      ∃ n, e.count = JSVal.num n ∧ 1 ≤ n)
    ∧ (∀ e ∈ (performAIAnalysis now data).topAssets,
      ∃ n, e.count = JSVal.num n ∧ 1 ≤ n)
    ∧ (∀ e ∈ (performAIAnalysis now data).mfcStats,
      ∃ n, e.count = JSVal.num n ∧ 1 ≤ n)
    ∧ showsNoData (performAIAnalysis now data).topParts = false
    ∧ showsNoData (performAIAnalysis now data).topAssets = false
    ∧ showsNoData (performAIAnalysis now data).mfcStats = false
    ∧ showsNoData (performAIAnalysis now []).topParts = true
    ∧ formatTopItems (performAIAnalysis now []).topParts = noDataMessage := by
  have hkp := map_key_ne_nil h (fun r => r.partNumber)
  have hka := map_key_ne_nil h (fun r => r.removedFrom)
  have hkm := map_key_ne_nil h (fun r => r.mfc)
  rw [performAIAnalysis_of_ne_nil h]
  dsimp only
  rw [rankedEntries_numEntry (plainKeys_of_record_map hp),
    rankedEntries_numEntry (plainKeys_of_record_map ha),
    rankedEntries_numEntry (plainKeys_of_record_map hm),
    ← List.map_take numEntry, ← List.map_take numEntry]
  refine ⟨one_le_count_entries one_le_snd_take5,
    one_le_count_entries one_le_snd_take5,
    one_le_count_entries one_le_snd_rankedEntries,
    showsNoData_map_eq_false (take5_ne_nil hkp) one_le_snd_take5,
    showsNoData_map_eq_false (take5_ne_nil hka) one_le_snd_take5,
    showsNoData_map_eq_false (rankedEntries_ne_nil hkm) one_le_snd_rankedEntries,
    rfl, rfl⟩

/-- C10 witness: the no-data guard is false on the top-parts list of a
concrete one-record snapshot with ordinary keys. -/
theorem claim10_nonzero_counts_witness :
    showsNoData (performAIAnalysis 0 [mockRecord]).topParts = false :=
  (claim10_nonzero_counts 0 [mockRecord] (by decide) (by decide) (by decide)
    (by decide)).2.2.2.1

lemma names_map_mkEntry (l : FreqTable) :
    (l.map mkEntry).map Entry.name = l.map Prod.fst := by
  rw [List.map_map]
  rfl

lemma names_map_numEntry (l : PlainTable) :
    ((l.map numEntry).map mkEntry).map Entry.name = l.map Prod.fst := by
  rw [List.map_map, List.map_map]
  rfl

/-- C4 counterexample: in the snapshot `cexTieData` the part-number keys
are the array-index strings `"2"` then `"1"`, with equal counts and with
`"2"` occurring first, yet the ranked output lists `"1"` before `"2"`:
property enumeration puts canonical array-index keys in ascending numeric
order, not first-occurrence order. -/
theorem claim4_counterexample :
    cexTieData.map (fun r => jsKey r.partNumber) = ["2", "1"]
    ∧ (cexTieData.map (fun r => jsKey r.partNumber)).count "2" =
      (cexTieData.map (fun r => jsKey r.partNumber)).count "1"
    ∧ List.indexOf "2" (cexTieData.map (fun r => jsKey r.partNumber)) <
      List.indexOf "1" (cexTieData.map (fun r => jsKey r.partNumber))
    ∧ (performAIAnalysis 0 cexTieData).topParts.map Entry.name = ["1", "2"]
    ∧ decide (["2", "1"] <+ (performAIAnalysis 0 cexTieData).topParts.map Entry.name)
      = false := by
  decide

/-- C4 (amended): in a snapshot whose keys for the dimension at hand all
avoid `Object.prototype` member names (so every record creates an own
numeric entry and the sort comparator is consistent), whenever two keys
that are not canonical array-index strings have equal counts, the key
whose first occurrence is earlier in the snapshot appears earlier in the
ranked output (for the truncated top-5 lists: whenever the later key
still appears in the truncated list); canonical array-index keys are
instead enumerated first in ascending numeric order by the frequency
table, overriding first-occurrence order as the counterexample shows. -/
theorem claim4_amended (now : Int) (data : List SubmissionRecord) (k1 k2 : String)
    (hne : k1 ≠ k2)
    (h1 : isArrayIndexKey k1 = false) (h2 : isArrayIndexKey k2 = false)
    (hdata : data ≠ []) :
    ((∀ r ∈ data, isPlainKey (jsKey r.mfc) = true) →
      (k2 ∈ data.map (fun r => jsKey r.mfc)) →
      List.indexOf k1 (data.map (fun r => jsKey r.mfc)) <
        List.indexOf k2 (data.map (fun r => jsKey r.mfc)) →
      (data.map (fun r => jsKey r.mfc)).count k1 =
        (data.map (fun r => jsKey r.mfc)).count k2 →
      [k1, k2] <+ (performAIAnalysis now data).mfcStats.map Entry.name)
    ∧ ((∀ r ∈ data, isPlainKey (jsKey r.partNumber) = true) →
      (k2 ∈ data.map (fun r => jsKey r.partNumber)) →
      List.indexOf k1 (data.map (fun r => jsKey r.partNumber)) <
        List.indexOf k2 (data.map (fun r => jsKey r.partNumber)) →
      (data.map (fun r => jsKey r.partNumber)).count k1 =
        (data.map (fun r => jsKey r.partNumber)).count k2 →
      k2 ∈ (performAIAnalysis now data).topParts.map Entry.name →
      [k1, k2] <+ (performAIAnalysis now data).topParts.map Entry.name)
    ∧ ((∀ r ∈ data, isPlainKey (jsKey r.removedFrom) = true) →
      (k2 ∈ data.map (fun r => jsKey r.removedFrom)) →
      List.indexOf k1 (data.map (fun r => jsKey r.removedFrom)) <
        List.indexOf k2 (data.map (fun r => jsKey r.removedFrom)) →
      (data.map (fun r => jsKey r.removedFrom)).count k1 =
        (data.map (fun r => jsKey r.removedFrom)).count k2 →
      k2 ∈ (performAIAnalysis now data).topAssets.map Entry.name →
      [k1, k2] <+ (performAIAnalysis now data).topAssets.map Entry.name) := by
  rw [performAIAnalysis_of_ne_nil hdata]
  dsimp only
  refine ⟨?_, ?_, ?_⟩
  · intro hplain hk2 hidx hcnt
    rw [rankedEntries_numEntry (plainKeys_of_record_map hplain), names_map_numEntry]
    exact rankedEntries_tie_order hne h1 h2 hk2 hidx hcnt
  · intro hplain hk2 hidx hcnt hmem
    rw [rankedEntries_numEntry (plainKeys_of_record_map hplain),
      ← List.map_take numEntry, names_map_numEntry, List.map_take] at hmem ⊢
    exact pair_sublist_take hne (nodup_fst_rankedEntries _)
      (rankedEntries_tie_order hne h1 h2 hk2 hidx hcnt) hmem
  · intro hplain hk2 hidx hcnt hmem
    rw [rankedEntries_numEntry (plainKeys_of_record_map hplain),
      ← List.map_take numEntry, names_map_numEntry, List.map_take] at hmem ⊢
    exact pair_sublist_take hne (nodup_fst_rankedEntries _)
      (rankedEntries_tie_order hne h1 h2 hk2 hidx hcnt) hmem

/-- C4 amended witness: in `tieWitnessData` the non-index, ordinary MFC
keys `"B"` and `"A"` tie with `"B"` first, and the ranked MFC breakdown
keeps `"B"` before `"A"`. -/
theorem claim4_amended_witness :
    ["B", "A"] <+ (performAIAnalysis 0 tieWitnessData).mfcStats.map Entry.name :=
  (claim4_amended 0 tieWitnessData "B" "A" (by decide) (by decide) (by decide)
    (by decide)).1 (by decide) (by decide) (by decide) (by decide)

/-- C9: in every exported record line the Date column is `removalDate`
when that field is present and nonempty, otherwise the `date` field
(defaulted to empty), and missing optional fields, `serviceCallId` and
`comments` included, render as the empty string; the fully absent record
renders ten empty cells and never the literal text "undefined". -/
theorem claim9_export_columns (r : SubmissionRecord) :
    (∀ s, r.removalDate = some s → s ≠ "" → (recordRow r)[2]? = some s)
    ∧ ((r.removalDate = none ∨ r.removalDate = some "") →
      (recordRow r)[2]? = some (jsOrD r.date ""))
    ∧ (r.serviceCallId = none → (recordRow r)[7]? = some "")
    ∧ (r.comments = none → (recordRow r)[9]? = some "")
    ∧ recordRow emptyRecord = ["", "", "", "", "", "", "", "", "", ""]
    ∧ (recordRow emptyRecord).contains "undefined" = false := by
  refine ⟨?_, ?_, ?_, ?_, by decide, by decide⟩
  · intro s hs hne
    simp [recordRow, jsOrD, hs, hne]
  · intro hd
    rcases hd with hd | hd <;> simp [recordRow, jsOrD, hd]
  · intro hs
    simp [recordRow, jsOrD, hs, replaceCommas]
  · intro hc
    simp [recordRow, jsOrD, hc, replaceCommas]

/-- C9 witness: the Date column rule instantiated on the export snapshot
record carrying `removalDate = "2024-01-15"`. -/
theorem claim9_export_columns_witness :
    (recordRow exportHeadRecord)[2]? = some "2024-01-15" :=
  (claim9_export_columns exportHeadRecord).1 "2024-01-15" rfl (by decide)

end RedTag
